import Mathlib

/-!
Shallow embedding of the Hawaii climate Flask app (`app.py`).

The app exposes read-only routes over a measurement table (station, date,
prcp, tobs) and a station table (station, name).  Dates are stored as
`YYYY-MM-DD` text and compared lexically, as SQLite compares TEXT columns.

This file models:
* `validate_date` — the strptime/strftime round-trip validator;
* the date arithmetic (`relativedelta(years=1)` subtraction);
* the five data routes (`precipitation`, `stations`, `tobs`,
  `/api/v1.0/<start>`, `/api/v1.0/<start>/<end>`) as functions over an
  explicit database value, with query failure modelled by `Option`.
-/

set_option maxRecDepth 4000

namespace ClimateApp

/-! ### Calendar dates -/

/-- A calendar date as produced by `datetime.strptime(s, "%Y-%m-%d")`. -/
structure Date where
  year : Nat
  month : Nat
  day : Nat
deriving DecidableEq, Repr

/-- Gregorian leap-year rule, as implemented by Python's `datetime`. -/
def isLeap (y : Nat) : Bool := y % 4 == 0 && (y % 100 != 0 || y % 400 == 0)

/-- Number of days in month `m` of year `y` (Python `calendar.monthrange`). -/
def daysInMonth (y m : Nat) : Nat :=
  if m = 2 then (if isLeap y then 29 else 28)
  else if m = 4 ∨ m = 6 ∨ m = 9 ∨ m = 11 then 30
  else 31

/-- The ranges enforced by the `datetime.date` constructor:
`MINYEAR ≤ year ≤ MAXYEAR`, a real month, and a real day of that month. -/
def isValidDate (y m d : Nat) : Prop :=
  1 ≤ y ∧ y ≤ 9999 ∧ 1 ≤ m ∧ m ≤ 12 ∧ 1 ≤ d ∧ d ≤ daysInMonth y m

instance (y m d : Nat) : Decidable (isValidDate y m d) := by
  unfold isValidDate; infer_instance

/-! ### Formatting (`strftime('%Y-%m-%d')` / `date.isoformat()`) -/

/-- Zero-padded two-digit rendering (`%m`, `%d`). -/
def pad2 (n : Nat) : String := if n < 10 then "0" ++ toString n else toString n

/-- Zero-padded four-digit rendering (`%Y` with century). -/
def pad4 (n : Nat) : String :=
  if n < 10 then "000" ++ toString n
  else if n < 100 then "00" ++ toString n
  else if n < 1000 then "0" ++ toString n
  else toString n

/-- `d.strftime('%Y-%m-%d')`, also `d.isoformat()`. -/
def formatDate (d : Date) : String :=
  pad4 d.year ++ "-" ++ pad2 d.month ++ "-" ++ pad2 d.day

/-! ### Parsing (`datetime.strptime(s, "%Y-%m-%d")`)

CPython's `_strptime` compiles the format to the regular expression
`(?P<Y>\d\d\d\d)\-(?P<m>1[0-2]|0[1-9]|[1-9])\-(?P<d>3[01]|[12]\d|0[1-9]|[1-9])`,
requires it to consume the whole input, and then builds a
`datetime.date`, whose constructor rejects out-of-range fields.
Since the component patterns match only digits, matching the whole input
is equivalent to splitting the input at `'-'` into exactly three chunks
and matching each chunk in full. -/

/-- Split a character list at every `'-'` (so `"a-b"` ↦ `[[a],[b]]`,
with empty chunks kept, e.g. `"-"` ↦ `[[],[]]`). -/
def splitDash (cs : List Char) : List (List Char) :=
  cs.foldr
    (fun c acc =>
      if c = '-' then [] :: acc
      else
        match acc with
        | [] => [[c]]
        | a :: as => (c :: a) :: as)
    [[]]

/-- Numeric value of a digit chunk. -/
def digitsToNat (cs : List Char) : Nat :=
  cs.foldl (fun n c => 10 * n + (c.toNat - 48)) 0

/-- Full match of the `%m` pattern `1[0-2]|0[1-9]|[1-9]` against a chunk,
returning the month value. -/
def matchMonth : List Char → Option Nat
  | [c] => if 49 ≤ c.toNat ∧ c.toNat ≤ 57 then some (c.toNat - 48) else none
  | [c₁, c₂] =>
    if c₁.toNat = 49 ∧ 48 ≤ c₂.toNat ∧ c₂.toNat ≤ 50 then
      some (10 + (c₂.toNat - 48))
    else if c₁.toNat = 48 ∧ 49 ≤ c₂.toNat ∧ c₂.toNat ≤ 57 then
      some (c₂.toNat - 48)
    else none
  | _ => none

/-- Full match of the `%d` pattern `3[01]|[12]\d|0[1-9]|[1-9]` against a
chunk, returning the day value. -/
def matchDay : List Char → Option Nat
  | [c] => if 49 ≤ c.toNat ∧ c.toNat ≤ 57 then some (c.toNat - 48) else none
  | [c₁, c₂] =>
    if c₁.toNat = 51 ∧ 48 ≤ c₂.toNat ∧ c₂.toNat ≤ 49 then
      some (30 + (c₂.toNat - 48))
    else if (49 ≤ c₁.toNat ∧ c₁.toNat ≤ 50) ∧ 48 ≤ c₂.toNat ∧ c₂.toNat ≤ 57 then
      some (10 * (c₁.toNat - 48) + (c₂.toNat - 48))
    else if c₁.toNat = 48 ∧ 49 ≤ c₂.toNat ∧ c₂.toNat ≤ 57 then
      some (c₂.toNat - 48)
    else none
  | _ => none

/-- `datetime.strptime(s, "%Y-%m-%d")`, returning `none` where Python
raises `ValueError` (regex mismatch, unconverted data, or an invalid
calendar date rejected by the `date` constructor). -/
def parseDate (s : String) : Option Date :=
  match splitDash s.toList with
  | [ys, ms, ds] =>
    if ys.length = 4 ∧ ys.all (fun c => 48 ≤ c.toNat ∧ c.toNat ≤ 57) then
      match matchMonth ms, matchDay ds with
      | some m, some d =>
        if 1 ≤ digitsToNat ys ∧ digitsToNat ys ≤ 9999 ∧
            d ≤ daysInMonth (digitsToNat ys) m then
          some ⟨digitsToNat ys, m, d⟩
        else none
      | _, _ => none
    else none
  | _ => none

/-- `validate_date` from `app.py`: parse with `strptime`, reformat with
`strftime('%Y-%m-%d')`, and require the result to equal the input;
any `ValueError` yields `False`. -/
def validate_date (date_text : String) : Bool :=
  match parseDate date_text with
  | some d => formatDate d == date_text
  | none => false

example : validate_date "2017-01-01" = true := by decide
example : validate_date "2020-02-29" = true := by decide
example : validate_date "2020-13-01" = false := by decide
example : validate_date "2020-02-30" = false := by decide
example : validate_date "20-01-01" = false := by decide
example : validate_date "2020-1-1" = false := by decide
example : validate_date "2020/01/01" = false := by decide

/-! ### Lexicographic string order

Python compares `str` values and SQLite compares TEXT values
lexicographically by code point; these booleans implement that order
by structural recursion (so they evaluate inside the kernel). -/

/-- Strict lexicographic order on code-point lists. -/
def charListLt : List Char → List Char → Bool
  | _, [] => false
  | [], _ :: _ => true
  | a :: as, b :: bs =>
    if a.toNat < b.toNat then true
    else if b.toNat < a.toNat then false
    else charListLt as bs

/-- Python's `s < t` on strings, SQLite's `text < text`. -/
def strLt (a b : String) : Bool := charListLt a.toList b.toList

/-- Python's `s <= t` on strings, SQLite's `text <= text` (and the
comparison behind a SQL `>=`/`BETWEEN` filter). -/
def strLe (a b : String) : Bool := ! strLt b a

/-! ### `relativedelta(years=1)` subtraction

`dateutil.relativedelta` decrements the year and clamps the day to the
length of the target month (so 2016-02-29 ↦ 2015-02-28).  Reaching year
0 would make the `date` constructor raise, modelled by `none`. -/

def oneYearPrior (d : Date) : Option Date :=
  if d.year ≤ 1 then none
  else some ⟨d.year - 1, d.month, min d.day (daysInMonth (d.year - 1) d.month)⟩

/-! ### Data model

`measurement(station, date, prcp, tobs)` and `station(station, name)`,
reflected by automap.  `date` is TEXT and is compared lexically by
SQLite; `prcp` is nullable REAL; `tobs` is REAL (modelled as `ℚ`). -/

structure Obs where
  station : String
  date : String
  prcp : Option ℚ
  tobs : ℚ
deriving DecidableEq, Repr

structure StationRow where
  station : String
  name : String
deriving DecidableEq, Repr

structure DB where
  measurements : List Obs
  stations : List StationRow
deriving DecidableEq, Repr

/-! ### SQL aggregate functions -/

/-- SQL `MIN` over the selected column (`NULL` on an empty selection). -/
def sqlMin (l : List ℚ) : Option ℚ := l.min?

/-- SQL `MAX` over the selected column (`NULL` on an empty selection). -/
def sqlMax (l : List ℚ) : Option ℚ := l.max?

/-- SQL `AVG` over the selected column (`NULL` on an empty selection). -/
def sqlAvg (l : List ℚ) : Option ℚ :=
  if l.isEmpty then none else some (l.sum / l.length)

/-- SQLite `round(x)`: round to the nearest integer, halves away from
zero. -/
def sqlRound (q : ℚ) : ℚ :=
  if 0 ≤ q then ((⌊q + 1 / 2⌋ : ℤ) : ℚ) else ((⌈q - 1 / 2⌉ : ℤ) : ℚ)

/-! ### Queries shared by several routes -/

/-- One step of a `ORDER BY ... DESC LIMIT 1` scan: keep the larger entry. -/
def maxStep (acc : Option String) (d : String) : Option String :=
  match acc with
  | none => some d
  | some m => if strLt m d then some d else some m

/-- `ORDER BY ... DESC LIMIT 1` over a column: an entry no other entry
exceeds, `none` on an empty column. -/
def maxEntry (l : List String) : Option String := l.foldl maxStep none

/-- `session.query(Measurement.date).order_by(Measurement.date.desc()).first()`:
the latest measurement date, `none` on an empty table (whereupon
`max_date[0]` in the handler raises — the `EmptyDataset` fault). -/
def maxDateOf (db : DB) : Option String := maxEntry (db.measurements.map Obs.date)

/-! ### `/api/v1.0/precipitation` -/

/-- `ORDER BY date DESC, station DESC` as a total boolean order on rows. -/
def prcpOrder (a b : Obs) : Bool :=
  strLt b.date a.date || (b.date == a.date && strLe b.station a.station)

/-- The `precipitation` handler: find the latest date, go back one
calendar year, and list `(date, prcp)` for every row with
`date >= previous_year_date`, ordered by date then station descending.
`none` models the uncaught exception on an empty table (or an
unparseable stored date). -/
def precipitation (db : DB) : Option (List (String × Option ℚ)) :=
  match maxDateOf db with
  | none => none
  | some md =>
    match parseDate md with
    | none => none
    | some d =>
      match oneYearPrior d with
      | none => none
      | some p =>
        some ((((db.measurements.filter
            fun o => strLe (formatDate p) o.date).mergeSort prcpOrder)).map
          fun o => (o.date, o.prcp))

/-! ### `/api/v1.0/stations` -/

/-- `ORDER BY station ASC` on the catalog records. -/
def stationOrder (a b : String × String) : Bool := strLe a.1 b.1

/-- The `stations` handler:
`query(Measurement.station, Station.name)
  .filter(Measurement.station == Station.station)
  .group_by(Measurement.station).order_by(Measurement.station.asc())`:
one record per distinct measurement station joined to its name. -/
def stationCatalog (db : DB) : List (String × String) :=
  (((db.measurements.map Obs.station).dedup).filterMap
    (fun st => (db.stations.find? fun s => s.station == st).map
      fun s => (st, s.name))).mergeSort stationOrder

/-! ### `/api/v1.0/tobs` -/

/-- Number of measurement rows of station `st` (`func.count` per group). -/
def countStation (db : DB) (st : String) : Nat :=
  (db.measurements.filter fun o => o.station == st).length

/-- One step of the `ORDER BY count DESC LIMIT 1` scan over the grouped
station counts: keep the station with the larger count. -/
def pickStep (db : DB) (acc : Option String) (st : String) : Option String :=
  match acc with
  | none => some st
  | some b => if countStation db b < countStation db st then some st else some b

/-- `query(station, count(station)).group_by(station)
  .order_by(count(station).desc()).first()`: a station whose row count is
maximal (`none` on an empty table). -/
def mostActive (db : DB) : Option String :=
  (db.measurements.map Obs.station).dedup.foldl (pickStep db) none

/-- `ORDER BY station ASC, date ASC` as a total boolean order on rows. -/
def tobsOrder (a b : Obs) : Bool :=
  strLt a.station b.station || (a.station == b.station && strLe a.date b.date)

/-- The `tobs` handler: latest date, one year back, most active station,
then `(station, date, tobs)` for that station's rows with
`date >= previous_year_date`, ordered by station then date ascending. -/
def tobsListing (db : DB) : Option (List (String × String × ℚ)) :=
  match maxDateOf db with
  | none => none
  | some md =>
    match parseDate md with
    | none => none
    | some d =>
      match oneYearPrior d with
      | none => none
      | some p =>
        match mostActive db with
        | none => none
        | some best =>
          some (((db.measurements.filter
              fun o => o.station == best && strLe (formatDate p) o.date).mergeSort
            tobsOrder).map fun o => (o.station, o.date, o.tobs))

/-! ### `/api/v1.0/<start>` and `/api/v1.0/<start>/<end>`

Unlike `precipitation`/`tobs`, which filter with an `isoformat()` string,
these handlers filter with `start_date = dt.datetime.strptime(...)` — a
`datetime` object.  Bound against the reflected TEXT `date` column it
reaches SQLite rendered with a midnight time suffix (the pysqlite
driver's default `datetime` adapter emits `'YYYY-MM-DD 00:00:00'`), so
the TEXT comparison is against that longer string: a row dated exactly
`'YYYY-MM-DD'` is a strict prefix of the bound value and therefore
compares *less than* it. -/

/-- The string a midnight `datetime` bind parameter reaches the TEXT
column as. -/
def bindDatetime (s : String) : String := s ++ " 00:00:00"

/-- The three aggregate queries of the `start` handler: `MIN`, rounded
`AVG` and `MAX` of `tobs`, each over rows with
`date >= <rendered datetime bind>`. -/
def startAggregate (db : DB) (s : String) : Option ℚ × Option ℚ × Option ℚ :=
  (sqlMin ((db.measurements.filter
      fun o => strLe (bindDatetime s) o.date).map Obs.tobs),
   (sqlAvg ((db.measurements.filter
      fun o => strLe (bindDatetime s) o.date).map Obs.tobs)).map sqlRound,
   sqlMax ((db.measurements.filter
      fun o => strLe (bindDatetime s) o.date).map Obs.tobs))

/-- The three aggregate queries of the `start_end` handler: `MIN` and
`MAX` filter only on `date >= <rendered start bind>`, while `AVG` filters
on `date BETWEEN <rendered start bind> AND <rendered end bind>`. -/
def startEndAggregate (db : DB) (s e : String) : Option ℚ × Option ℚ × Option ℚ :=
  (sqlMin ((db.measurements.filter
      fun o => strLe (bindDatetime s) o.date).map Obs.tobs),
   (sqlAvg ((db.measurements.filter
       fun o => strLe (bindDatetime s) o.date &&
         strLe o.date (bindDatetime e)).map Obs.tobs)).map sqlRound,
   sqlMax ((db.measurements.filter
      fun o => strLe (bindDatetime s) o.date).map Obs.tobs))

/-- A handler's HTTP outcome: a JSON payload or a JSON error object. -/
inductive RouteResult (α : Type) where
  | ok : α → RouteResult α
  | clientError : String → RouteResult α
deriving DecidableEq, Repr

/-- The `/api/v1.0/<start>` handler with its HTTP status code: an invalid
date yields the 404 error message of `app.py`, otherwise the aggregates. -/
def startRoute (db : DB) (start_dt : String) :
    RouteResult (Option ℚ × Option ℚ × Option ℚ) × Nat :=
  if ¬ validate_date start_dt then
    (.clientError ("Please, specify the date in 'YYYY-MM-DD' format: The entered date '"
        ++ start_dt ++ "' is not valid."), 404)
  else
    (.ok (startAggregate db start_dt), 200)

/-- The `/api/v1.0/<start>/<end>` handler with its HTTP status code:
validate the start date, then the end date, then reject `end_dt < start_dt`
(Python string comparison, i.e. lexicographic), else aggregate. -/
def startEndRoute (db : DB) (start_dt end_dt : String) :
    RouteResult (Option ℚ × Option ℚ × Option ℚ) × Nat :=
  if ¬ validate_date start_dt then
    (.clientError ("Please, specify the start date in 'YYYY-MM-DD' format: The entered date '"
        ++ start_dt ++ "' is not valid."), 404)
  else if ¬ validate_date end_dt then
    (.clientError ("Please, specify the end date in 'YYYY-MM-DD' format: The entered date '"
        ++ end_dt ++ "' is not valid."), 404)
  else if strLt end_dt start_dt then
    (.clientError ("Please, specify start date less then end date. The dates entered are '"
        ++ start_dt ++ "' and '" ++ end_dt ++ "'"), 404)
  else
    (.ok (startEndAggregate db start_dt end_dt), 200)

/-- A small concrete database used to instantiate the theorems below.
Station USC1 has three rows, USC2 one; the latest date is 2017-08-23. -/
def sampleDB : DB where
  measurements :=
    [⟨"USC1", "2016-01-05", some 1, 60⟩,
     ⟨"USC1", "2017-08-23", none, 80⟩,
     ⟨"USC2", "2017-08-23", some 2, 75⟩,
     ⟨"USC1", "2016-08-23", some 3, 70⟩]
  stations := [⟨"USC1", "Alpha"⟩, ⟨"USC2", "Beta"⟩]

/-! ## Lemmas about the date validator -/

theorem matchMonth_bounds {cs : List Char} {m : Nat} (h : matchMonth cs = some m) :
    1 ≤ m ∧ m ≤ 12 := by
  match cs with
  | [] => simp [matchMonth] at h
  | [c] =>
    simp only [matchMonth] at h
    split at h
    · rename_i hc; cases h; omega
    · cases h
  | [c₁, c₂] =>
    simp only [matchMonth] at h
    split at h
    · rename_i hc; cases h; omega
    · split at h
      · rename_i hc; cases h; omega
      · cases h
  | c₁ :: c₂ :: c₃ :: t => simp [matchMonth] at h

theorem matchDay_bounds {cs : List Char} {d : Nat} (h : matchDay cs = some d) :
    1 ≤ d ∧ d ≤ 31 := by
  match cs with
  | [] => simp [matchDay] at h
  | [c] =>
    simp only [matchDay] at h
    split at h
    · rename_i hc; cases h; omega
    · cases h
  | [c₁, c₂] =>
    simp only [matchDay] at h
    split at h
    · rename_i hc; cases h; omega
    · split at h
      · rename_i hc; cases h; omega
      · split at h
        · rename_i hc; cases h; omega
        · cases h
  | c₁ :: c₂ :: c₃ :: t => simp [matchDay] at h

/-- Every date `strptime` accepts satisfies the `datetime.date` field
invariants. -/
theorem parseDate_valid {s : String} {dd : Date} (h : parseDate s = some dd) :
    isValidDate dd.year dd.month dd.day := by
  unfold parseDate at h
  split at h
  · rename_i ys ms ds
    split at h
    · rename_i hys
      split at h
      · rename_i m d hm hd
        split at h
        · rename_i hy
          cases h
          obtain ⟨hm₁, hm₂⟩ := matchMonth_bounds hm
          obtain ⟨hd₁, hd₂⟩ := matchDay_bounds hd
          exact ⟨hy.1, hy.2.1, hm₁, hm₂, hd₁, hy.2.2⟩
        · cases h
      · cases h
    · cases h
  · cases h

/-! ## Lemmas about the string order -/

theorem charListLt_irrefl (l : List Char) : charListLt l l = false := by
  induction l with
  | nil => rfl
  | cons a as ih => simp [charListLt, ih]

theorem charListLt_trans {as bs cs : List Char} (h₁ : charListLt as bs = true)
    (h₂ : charListLt bs cs = true) : charListLt as cs = true := by
  induction as generalizing bs cs with
  | nil =>
    cases cs with
    | nil => cases bs <;> simp [charListLt] at h₁ h₂
    | cons c cs => rfl
  | cons a as ih =>
    cases bs with
    | nil => simp [charListLt] at h₁
    | cons b bs =>
      cases cs with
      | nil => simp [charListLt] at h₂
      | cons c cs =>
        simp only [charListLt] at h₁ h₂ ⊢
        by_cases hab : a.toNat < b.toNat
        · by_cases hbc : b.toNat < c.toNat
          · have hac : a.toNat < c.toNat := Nat.lt_trans hab hbc
            simp [hac]
          · by_cases hcb : c.toNat < b.toNat
            · simp [hbc, hcb] at h₂
            · have hac : a.toNat < c.toNat := by omega
              simp [hac]
        · by_cases hba : b.toNat < a.toNat
          · simp [hab, hba] at h₁
          · have h₁' : charListLt as bs = true := by simpa [hab, hba] using h₁
            by_cases hbc : b.toNat < c.toNat
            · have hac : a.toNat < c.toNat := by omega
              simp [hac]
            · by_cases hcb : c.toNat < b.toNat
              · simp [hbc, hcb] at h₂
              · have h₂' : charListLt bs cs = true := by simpa [hbc, hcb] using h₂
                have hac : ¬ a.toNat < c.toNat := by omega
                have hca : ¬ c.toNat < a.toNat := by omega
                simp [hac, hca, ih h₁' h₂']

theorem charListLt_eq_of_not {as bs : List Char} (h₁ : charListLt as bs = false)
    (h₂ : charListLt bs as = false) : as = bs := by
  induction as generalizing bs with
  | nil =>
    cases bs with
    | nil => rfl
    | cons b bs => simp [charListLt] at h₁
  | cons a as ih =>
    cases bs with
    | nil => simp [charListLt] at h₂
    | cons b bs =>
      simp only [charListLt] at h₁ h₂
      by_cases hab : a.toNat < b.toNat
      · simp [hab] at h₁
      · by_cases hba : b.toNat < a.toNat
        · simp [hba] at h₂
        · have hn : a.toNat = b.toNat := by omega
          have hc : a = b := Char.ext (UInt32.toNat.inj hn)
          have h₁' : charListLt as bs = false := by simpa [hab, hba] using h₁
          have h₂' : charListLt bs as = false := by simpa [hab, hba] using h₂
          rw [hc, ih h₁' h₂']

theorem strLt_trans {a b c : String} (h₁ : strLt a b = true)
    (h₂ : strLt b c = true) : strLt a c = true :=
  charListLt_trans h₁ h₂

theorem strLt_irrefl (a : String) : strLt a a = false := charListLt_irrefl _

theorem strLt_asymm {a b : String} (h : strLt a b = true) : strLt b a = false := by
  cases hba : strLt b a with
  | false => rfl
  | true =>
    have h2 := strLt_trans h hba
    rw [strLt_irrefl] at h2
    cases h2

theorem strEq_of_not_lt {a b : String} (h₁ : strLt a b = false)
    (h₂ : strLt b a = false) : a = b := by
  have h := charListLt_eq_of_not h₁ h₂
  cases a with
  | mk da =>
    cases b with
    | mk db => exact congrArg String.mk (by simpa [String.toList] using h)

theorem strLe_refl (a : String) : strLe a a = true := by
  simp [strLe, strLt_irrefl]

theorem strLe_total (a b : String) : (strLe a b || strLe b a) = true := by
  simp only [strLe, Bool.or_eq_true, Bool.not_eq_true']
  by_cases h : strLt b a = true
  · right
    exact strLt_asymm h
  · left
    simpa using h

theorem strLe_trans {a b c : String} (h₁ : strLe a b = true)
    (h₂ : strLe b c = true) : strLe a c = true := by
  simp only [strLe, Bool.not_eq_true'] at h₁ h₂ ⊢
  cases hca : strLt c a with
  | false => rfl
  | true =>
    cases hab : strLt a b with
    | false =>
      have hba : a = b := strEq_of_not_lt hab h₁
      rw [hba] at hca
      rw [hca] at h₂
      cases h₂
    | true =>
      cases hbc : strLt b c with
      | false =>
        have hcb : b = c := strEq_of_not_lt hbc h₂
        rw [hcb] at h₁
        rw [h₁] at hca
        cases hca
      | true =>
        have hac := strLt_trans hab hbc
        have := strLt_trans hac hca
        rw [strLt_irrefl] at this
        cases this

theorem strLe_of_lt {a b : String} (h : strLt a b = true) : strLe a b = true := by
  simp [strLe, strLt_asymm h]

/-! ## Lemmas about comparing with the rendered datetime bind -/

theorem charListLt_append_self (as cs : List Char) :
    charListLt (as ++ cs) as = false := by
  induction as with
  | nil =>
    show charListLt cs [] = false
    cases cs <;> rfl
  | cons a as ih =>
    simp only [List.cons_append, charListLt]
    have hirr : ¬ a.toNat < a.toNat := by omega
    rw [if_neg hirr, if_neg hirr]
    exact ih

theorem charListLt_self_append (as : List Char) {cs : List Char} (hcs : cs ≠ []) :
    charListLt as (as ++ cs) = true := by
  induction as with
  | nil =>
    cases cs with
    | nil => exact absurd rfl hcs
    | cons c cs => rfl
  | cons a as ih =>
    simp only [List.cons_append, charListLt]
    have hirr : ¬ a.toNat < a.toNat := by omega
    rw [if_neg hirr, if_neg hirr]
    exact ih

theorem charListLt_append_of_lt : ∀ {bs as : List Char} (cs : List Char),
    charListLt bs as = true → charListLt bs (as ++ cs) = true := by
  intro bs
  induction bs with
  | nil =>
    intro as cs h
    cases as with
    | nil => cases h
    | cons a as => rfl
  | cons b bs ih =>
    intro as cs h
    cases as with
    | nil =>
      rw [show charListLt (b :: bs) [] = false from rfl] at h
      cases h
    | cons a as =>
      simp only [charListLt] at h
      simp only [List.cons_append, charListLt]
      by_cases hba : b.toNat < a.toNat
      · rw [if_pos hba]
      · rw [if_neg hba] at h ⊢
        by_cases hab : a.toNat < b.toNat
        · rw [if_pos hab] at h
          cases h
        · rw [if_neg hab] at h ⊢
          exact ih cs h

theorem charListLt_append_left_eq : ∀ {as bs : List Char} (cs : List Char),
    as.length = bs.length → charListLt (as ++ cs) bs = charListLt as bs := by
  intro as
  induction as with
  | nil =>
    intro bs cs h
    cases bs with
    | nil =>
      show charListLt cs [] = charListLt [] []
      cases cs <;> rfl
    | cons b bs => simp at h
  | cons a as ih =>
    intro bs cs h
    cases bs with
    | nil => simp at h
    | cons b bs =>
      simp only [List.cons_append, charListLt]
      have h' : as.length = bs.length := by simpa using h
      rw [List.append_eq, ih cs h']

theorem charListLt_append_right_eq : ∀ {as bs : List Char} {cs : List Char},
    as.length = bs.length → cs ≠ [] →
    charListLt bs (as ++ cs) = !charListLt as bs := by
  intro as
  induction as with
  | nil =>
    intro bs cs h hcs
    cases bs with
    | nil =>
      cases cs with
      | nil => exact absurd rfl hcs
      | cons c cs => rfl
    | cons b bs => simp at h
  | cons a as ih =>
    intro bs cs h hcs
    cases bs with
    | nil => simp at h
    | cons b bs =>
      simp only [List.cons_append, charListLt]
      have h' : as.length = bs.length := by simpa using h
      by_cases hab : a.toNat < b.toNat
      · have hba : ¬ b.toNat < a.toNat := by omega
        simp [hab, hba]
      · by_cases hba : b.toNat < a.toNat
        · simp [hab, hba]
        · simp [hab, hba, ih h' hcs]

/-- A row dated exactly the start date fails `date >= <rendered bind>`:
the stored date is a strict prefix of the bound value. -/
theorem strLe_bind_self (s : String) : strLe (bindDatetime s) s = false := by
  show (!charListLt s.toList (bindDatetime s).toList) = false
  rw [show (bindDatetime s).toList = s.toList ++ (" 00:00:00" : String).toList from rfl]
  rw [charListLt_self_append _ (by decide)]
  rfl

/-- A date below the start date is also below the rendered bind. -/
theorem strLt_bind_of_lt {t s : String} (h : strLt t s = true) :
    strLt t (bindDatetime s) = true := by
  show charListLt t.toList (bindDatetime s).toList = true
  rw [show (bindDatetime s).toList = s.toList ++ (" 00:00:00" : String).toList from rfl]
  exact charListLt_append_of_lt _ h

/-- Against a date string of the same length as `s`, the rendered lower
bound `s ++ " 00:00:00"` acts as a strict comparison with `s` itself. -/
theorem strLe_bind_eq_strLt {s t : String} (h : s.toList.length = t.toList.length) :
    strLe (bindDatetime s) t = strLt s t := by
  show (!charListLt t.toList (bindDatetime s).toList) = charListLt s.toList t.toList
  rw [show (bindDatetime s).toList = s.toList ++ (" 00:00:00" : String).toList from rfl]
  rw [charListLt_append_right_eq h (by decide)]
  exact Bool.not_not _

/-- Against a date string of the same length as `e`, the rendered upper
bound `e ++ " 00:00:00"` acts as an inclusive comparison with `e`. -/
theorem strLe_bind_upper_eq {t e : String} (h : t.toList.length = e.toList.length) :
    strLe t (bindDatetime e) = strLe t e := by
  show (!charListLt (bindDatetime e).toList t.toList) = !charListLt e.toList t.toList
  rw [show (bindDatetime e).toList = e.toList ++ (" 00:00:00" : String).toList from rfl]
  rw [charListLt_append_left_eq _ h.symm]

/-! ## Lemmas about the SQL aggregates -/

theorem sqlMin_eq_some_iff {l : List ℚ} {q : ℚ} :
    sqlMin l = some q ↔ q ∈ l ∧ ∀ t ∈ l, q ≤ t := by
  haveI : Std.Antisymm ((· : ℚ) ≤ ·) := ⟨fun hab hba => le_antisymm hab hba⟩
  exact List.min?_eq_some_iff le_refl min_choice fun _ _ _ => le_min_iff

theorem sqlMax_eq_some_iff {l : List ℚ} {q : ℚ} :
    sqlMax l = some q ↔ q ∈ l ∧ ∀ t ∈ l, t ≤ q := by
  haveI : Std.Antisymm ((· : ℚ) ≤ ·) := ⟨fun hab hba => le_antisymm hab hba⟩
  exact List.max?_eq_some_iff le_refl max_choice fun _ _ _ => max_le_iff

theorem sqlAvg_map_round (l : List ℚ) :
    (sqlAvg l).map sqlRound =
      if l = [] then none else some (sqlRound (l.sum / l.length)) := by
  cases l <;> simp [sqlAvg]

theorem sqlAvg_cons (a : ℚ) (l : List ℚ) :
    sqlAvg (a :: l) = some ((a :: l).sum / (((a :: l).length : ℕ) : ℚ)) := rfl

theorem sqlRound_eq {q : ℚ} {z : ℤ} (h0 : 0 ≤ q) (hfl : ⌊q + 1 / 2⌋ = z) :
    sqlRound q = (z : ℚ) := by
  unfold sqlRound
  rw [if_pos h0, hfl]

/-! ## Lemmas about the ordering predicates -/

theorem prcpOrder_trans (a b c : Obs) (h₁ : prcpOrder a b = true)
    (h₂ : prcpOrder b c = true) : prcpOrder a c = true := by
  simp only [prcpOrder, Bool.or_eq_true, Bool.and_eq_true, beq_iff_eq] at h₁ h₂ ⊢
  rcases h₁ with h₁ | ⟨h₁e, h₁s⟩
  · rcases h₂ with h₂ | ⟨h₂e, h₂s⟩
    · exact Or.inl (strLt_trans h₂ h₁)
    · exact Or.inl (h₂e ▸ h₁)
  · rcases h₂ with h₂ | ⟨h₂e, h₂s⟩
    · exact Or.inl (h₁e ▸ h₂)
    · exact Or.inr ⟨h₂e.trans h₁e, strLe_trans h₂s h₁s⟩

theorem prcpOrder_total (a b : Obs) : (prcpOrder a b || prcpOrder b a) = true := by
  simp only [prcpOrder, Bool.or_eq_true, Bool.and_eq_true, beq_iff_eq]
  cases hba : strLt b.date a.date with
  | true => exact Or.inl (Or.inl rfl)
  | false =>
    cases hab : strLt a.date b.date with
    | true => exact Or.inr (Or.inl rfl)
    | false =>
      have he : a.date = b.date := strEq_of_not_lt hab hba
      have ht := strLe_total b.station a.station
      rcases Bool.or_eq_true_iff.mp ht with h | h
      · exact Or.inl (Or.inr ⟨he.symm, h⟩)
      · exact Or.inr (Or.inr ⟨he, h⟩)

theorem tobsOrder_trans (a b c : Obs) (h₁ : tobsOrder a b = true)
    (h₂ : tobsOrder b c = true) : tobsOrder a c = true := by
  simp only [tobsOrder, Bool.or_eq_true, Bool.and_eq_true, beq_iff_eq] at h₁ h₂ ⊢
  rcases h₁ with h₁ | ⟨h₁e, h₁s⟩
  · rcases h₂ with h₂ | ⟨h₂e, h₂s⟩
    · exact Or.inl (strLt_trans h₁ h₂)
    · exact Or.inl (h₂e ▸ h₁)
  · rcases h₂ with h₂ | ⟨h₂e, h₂s⟩
    · exact Or.inl (h₁e ▸ h₂)
    · exact Or.inr ⟨h₁e.trans h₂e, strLe_trans h₁s h₂s⟩

theorem tobsOrder_total (a b : Obs) : (tobsOrder a b || tobsOrder b a) = true := by
  simp only [tobsOrder, Bool.or_eq_true, Bool.and_eq_true, beq_iff_eq]
  cases hab : strLt a.station b.station with
  | true => exact Or.inl (Or.inl rfl)
  | false =>
    cases hba : strLt b.station a.station with
    | true => exact Or.inr (Or.inl rfl)
    | false =>
      have he : a.station = b.station := strEq_of_not_lt hab hba
      have ht := strLe_total a.date b.date
      rcases Bool.or_eq_true_iff.mp ht with h | h
      · exact Or.inl (Or.inr ⟨he, h⟩)
      · exact Or.inr (Or.inr ⟨he.symm, h⟩)

theorem stationOrder_trans (a b c : String × String) (h₁ : stationOrder a b = true)
    (h₂ : stationOrder b c = true) : stationOrder a c = true :=
  strLe_trans h₁ h₂

theorem stationOrder_total (a b : String × String) :
    (stationOrder a b || stationOrder b a) = true :=
  strLe_total a.1 b.1

/-! ## Lemmas about the `first()`-style folds -/

theorem maxEntry_go {l : List String} :
    ∀ {acc : Option String} {m : String},
      l.foldl maxStep acc = some m →
      (acc = some m ∨ m ∈ l) ∧ (∀ x ∈ l, strLe x m = true) ∧
        ∀ a, acc = some a → strLe a m = true := by
  induction l with
  | nil =>
    intro acc m h
    simp only [List.foldl_nil] at h
    refine ⟨Or.inl h, by simp, fun a ha => ?_⟩
    rw [ha] at h
    have hm : a = m := by injection h
    rw [hm]
    exact strLe_refl m
  | cons d t ih =>
    intro acc m h
    simp only [List.foldl_cons] at h
    cases acc with
    | none =>
      rw [show maxStep none d = some d from rfl] at h
      obtain ⟨hmem, hall, hacc⟩ := ih h
      refine ⟨?_, ?_, fun a ha => by cases ha⟩
      · rcases hmem with hm | hm
        · have : d = m := by injection hm
          exact Or.inr (this ▸ List.mem_cons_self _ _)
        · exact Or.inr (List.mem_cons_of_mem _ hm)
      · intro x hx
        rcases List.mem_cons.mp hx with hx | hx
        · rw [hx]
          exact hacc d rfl
        · exact hall x hx
    | some b =>
      cases hbd : strLt b d with
      | true =>
        rw [show maxStep (some b) d = if strLt b d then some d else some b from rfl,
          if_pos hbd] at h
        obtain ⟨hmem, hall, hacc⟩ := ih h
        refine ⟨?_, ?_, fun a ha => ?_⟩
        · rcases hmem with hm | hm
          · have : d = m := by injection hm
            exact Or.inr (this ▸ List.mem_cons_self _ _)
          · exact Or.inr (List.mem_cons_of_mem _ hm)
        · intro x hx
          rcases List.mem_cons.mp hx with hx | hx
          · rw [hx]
            exact hacc d rfl
          · exact hall x hx
        · have hab : b = a := by injection ha
          rw [← hab]
          exact strLe_trans (strLe_of_lt hbd) (hacc d rfl)
      | false =>
        rw [show maxStep (some b) d = if strLt b d then some d else some b from rfl,
          if_neg (by simp [hbd])] at h
        obtain ⟨hmem, hall, hacc⟩ := ih h
        refine ⟨?_, ?_, fun a ha => ?_⟩
        · rcases hmem with hm | hm
          · exact Or.inl hm
          · exact Or.inr (List.mem_cons_of_mem _ hm)
        · intro x hx
          rcases List.mem_cons.mp hx with hx | hx
          · rw [hx]
            exact strLe_trans (by simp [strLe, hbd]) (hacc b rfl)
          · exact hall x hx
        · have hab : b = a := by injection ha
          rw [← hab]
          exact hacc b rfl

/-- A successful `maxEntry` really is a maximal entry. -/
theorem maxEntry_spec {l : List String} {m : String} (h : maxEntry l = some m) :
    m ∈ l ∧ ∀ x ∈ l, strLe x m = true := by
  unfold maxEntry at h
  obtain ⟨hmem, hall, _⟩ := maxEntry_go h
  rcases hmem with hm | hm
  · cases hm
  · exact ⟨hm, hall⟩

theorem mostActive_go (db : DB) {l : List String} :
    ∀ {acc : Option String} {m : String},
      l.foldl (pickStep db) acc = some m →
      (acc = some m ∨ m ∈ l) ∧
        (∀ x ∈ l, countStation db x ≤ countStation db m) ∧
        ∀ a, acc = some a → countStation db a ≤ countStation db m := by
  induction l with
  | nil =>
    intro acc m h
    simp only [List.foldl_nil] at h
    refine ⟨Or.inl h, by simp, fun a ha => ?_⟩
    rw [ha] at h
    have hm : a = m := by injection h
    rw [hm]
  | cons d t ih =>
    intro acc m h
    simp only [List.foldl_cons] at h
    cases acc with
    | none =>
      rw [show pickStep db none d = some d from rfl] at h
      obtain ⟨hmem, hall, hacc⟩ := ih h
      refine ⟨?_, ?_, fun a ha => by cases ha⟩
      · rcases hmem with hm | hm
        · have : d = m := by injection hm
          exact Or.inr (this ▸ List.mem_cons_self _ _)
        · exact Or.inr (List.mem_cons_of_mem _ hm)
      · intro x hx
        rcases List.mem_cons.mp hx with hx | hx
        · rw [hx]
          exact hacc d rfl
        · exact hall x hx
    | some b =>
      rw [show pickStep db (some b) d =
        if countStation db b < countStation db d then some d else some b from rfl] at h
      by_cases hbd : countStation db b < countStation db d
      · rw [if_pos hbd] at h
        obtain ⟨hmem, hall, hacc⟩ := ih h
        refine ⟨?_, ?_, fun a ha => ?_⟩
        · rcases hmem with hm | hm
          · have : d = m := by injection hm
            exact Or.inr (this ▸ List.mem_cons_self _ _)
          · exact Or.inr (List.mem_cons_of_mem _ hm)
        · intro x hx
          rcases List.mem_cons.mp hx with hx | hx
          · rw [hx]
            exact hacc d rfl
          · exact hall x hx
        · have hab : b = a := by injection ha
          have h2 := hacc d rfl
          rw [← hab]
          omega
      · rw [if_neg hbd] at h
        obtain ⟨hmem, hall, hacc⟩ := ih h
        refine ⟨?_, ?_, fun a ha => ?_⟩
        · rcases hmem with hm | hm
          · exact Or.inl hm
          · exact Or.inr (List.mem_cons_of_mem _ hm)
        · intro x hx
          rcases List.mem_cons.mp hx with hx | hx
          · rw [hx]
            have h2 := hacc b rfl
            omega
          · exact hall x hx
        · have hab : b = a := by injection ha
          rw [← hab]
          exact hacc b rfl

theorem mostActive_go_none (db : DB) {l : List String} :
    ∀ {acc : Option String},
      l.foldl (pickStep db) acc = none → l = [] ∧ acc = none := by
  induction l with
  | nil => exact fun h => ⟨rfl, h⟩
  | cons d t ih =>
    intro acc h
    simp only [List.foldl_cons] at h
    obtain ⟨ht, hfd⟩ := ih h
    cases acc with
    | none =>
      rw [show pickStep db none d = some d from rfl] at hfd
      cases hfd
    | some b =>
      rw [show pickStep db (some b) d =
        if countStation db b < countStation db d then some d else some b from rfl] at hfd
      split at hfd <;> cases hfd

/-- The catalog's station column is the deduplicated station list filtered
to the stations the join retains. -/
theorem catalog_fst (db : DB) (l : List String) :
    (l.filterMap
      (fun st => (db.stations.find? fun s => s.station == st).map
        fun s => (st, s.name))).map Prod.fst =
    l.filter fun st => (db.stations.find? fun s => s.station == st).isSome := by
  induction l with
  | nil => rfl
  | cons st t ih =>
    cases hf : db.stations.find? fun s => s.station == st with
    | none => simp [List.filterMap_cons, List.filter_cons, hf, ih]
    | some srow => simp [List.filterMap_cons, List.filter_cons, hf, ih]

/-! ## The claims -/

/-- **C3**: the date validator accepts a string exactly when parsing it as
`YYYY-MM-DD` and reformatting yields a string identical to the input. -/
theorem validate_date_roundtrip (s : String) :
    validate_date s = true ↔ (parseDate s).map formatDate = some s := by
  unfold validate_date
  cases h : parseDate s with
  | none => simp
  | some d =>
    show (formatDate d == s) = true ↔ Option.map formatDate (some d) = some s
    simp

/-- **C4**: on the stated malformed inputs the validator returns `false`;
moreover every string the validator accepts is the canonical rendering of
a real calendar date (correct `-` separators, numeric zero-padded fields,
a four-digit year, a possible month and day), so every string malformed in
any of those ways is rejected. -/
theorem validate_date_malformed :
    validate_date "2020-13-01" = false ∧
    validate_date "2020-02-30" = false ∧
    validate_date "20-01-01" = false ∧
    ∀ s : String, validate_date s = true →
      ∃ y m d : Nat, isValidDate y m d ∧ s = formatDate ⟨y, m, d⟩ := by
  refine ⟨by decide, by decide, by decide, fun s hv => ?_⟩
  cases hp : parseDate s with
  | none => rw [validate_date, hp] at hv; cases hv
  | some dd =>
    rw [validate_date, hp] at hv
    exact ⟨dd.year, dd.month, dd.day, parseDate_valid hp, (eq_of_beq hv).symm⟩

theorem validate_date_malformed_witness :
    ∃ y m d : Nat, isValidDate y m d ∧ "2017-08-23" = formatDate ⟨y, m, d⟩ :=
  validate_date_malformed.2.2.2 "2017-08-23" (by decide)

/-- **C1** (the code, evaluated at the failing input): the start date
`"2016-08-23"` is valid and a row dated exactly `"2016-08-23"` (with
`tobs = 70`) exists, yet the start-only aggregator returns minimum 75 —
the boundary row is excluded from all three aggregates, because the
`datetime` bind reaches the TEXT column as `"2016-08-23 00:00:00"` and
the stored `"2016-08-23"` compares strictly below it.  The handler's own
docstring ("for all dates greater than and equal to the start date",
and the claim) require minimum 70. -/
theorem startAggregate_boundary_bug :
    validate_date "2016-08-23" = true ∧
    (⟨"USC1", "2016-08-23", some 3, 70⟩ : Obs) ∈ sampleDB.measurements ∧
    startAggregate sampleDB "2016-08-23" = (some 75, some 78, some 80) ∧
    (70 : ℚ) < 75 := by
  have hfil : sampleDB.measurements.filter
      (fun o => strLe (bindDatetime "2016-08-23") o.date) =
      [⟨"USC1", "2017-08-23", none, 80⟩, ⟨"USC2", "2017-08-23", some 2, 75⟩] := by
    decide
  refine ⟨by decide, by decide, ?_, by norm_num⟩
  unfold startAggregate
  rw [hfil]
  refine Prod.ext ?_ (Prod.ext ?_ ?_)
  · show (some (min (80 : ℚ) 75) : Option ℚ) = some 75
    rw [min_eq_right (by norm_num : (75 : ℚ) ≤ 80)]
  · show (sqlAvg [(80 : ℚ), 75]).map sqlRound = some 78
    rw [sqlAvg_cons, Option.map_some',
      sqlRound_eq (z := 78) (by norm_num) (by
        rw [Int.floor_eq_iff]
        constructor <;> norm_num)]
    norm_num
  · show (some (max (80 : ℚ) 75) : Option ℚ) = some 80
    rw [max_eq_left (by norm_num : (75 : ℚ) ≤ 80)]

/-- **C2** (counterexample): on `sampleDB` with valid start `"2016-08-23"`
and valid end `"2017-08-23"` (end ≥ start), the aggregator's returned
average is 78, while the rounded average over exactly the rows with
`start ≤ date ≤ end` is 75 (the row dated exactly the start day, with
`tobs = 70`, is excluded by the rendered datetime BETWEEN bound) — so the
average is not computed over `start ≤ date ≤ end`. -/
theorem startEndAggregate_avg_counterexample :
    validate_date "2016-08-23" = true ∧
    validate_date "2017-08-23" = true ∧
    strLe "2016-08-23" "2017-08-23" = true ∧
    (startEndAggregate sampleDB "2016-08-23" "2017-08-23").2.1 = some 78 ∧
    (sqlAvg ((sampleDB.measurements.filter
        fun o => strLe "2016-08-23" o.date &&
          strLe o.date "2017-08-23").map Obs.tobs)).map sqlRound = some 75 ∧
    (startEndAggregate sampleDB "2016-08-23" "2017-08-23").2.1 ≠
      (sqlAvg ((sampleDB.measurements.filter
        fun o => strLe "2016-08-23" o.date &&
          strLe o.date "2017-08-23").map Obs.tobs)).map sqlRound := by
  have hfil₁ : sampleDB.measurements.filter
      (fun o => strLe (bindDatetime "2016-08-23") o.date &&
        strLe o.date (bindDatetime "2017-08-23")) =
      [⟨"USC1", "2017-08-23", none, 80⟩, ⟨"USC2", "2017-08-23", some 2, 75⟩] := by
    decide
  have hfil₂ : sampleDB.measurements.filter
      (fun o => strLe "2016-08-23" o.date && strLe o.date "2017-08-23") =
      [⟨"USC1", "2017-08-23", none, 80⟩, ⟨"USC2", "2017-08-23", some 2, 75⟩,
       ⟨"USC1", "2016-08-23", some 3, 70⟩] := by
    decide
  have hD : (startEndAggregate sampleDB "2016-08-23" "2017-08-23").2.1 = some 78 := by
    show (sqlAvg ((sampleDB.measurements.filter
        fun o => strLe (bindDatetime "2016-08-23") o.date &&
          strLe o.date (bindDatetime "2017-08-23")).map Obs.tobs)).map sqlRound =
      some 78
    rw [hfil₁]
    show (sqlAvg [(80 : ℚ), 75]).map sqlRound = some 78
    rw [sqlAvg_cons, Option.map_some',
      sqlRound_eq (z := 78) (by norm_num) (by
        rw [Int.floor_eq_iff]
        constructor <;> norm_num)]
    norm_num
  have hE : (sqlAvg ((sampleDB.measurements.filter
      fun o => strLe "2016-08-23" o.date &&
        strLe o.date "2017-08-23").map Obs.tobs)).map sqlRound = some 75 := by
    rw [hfil₂]
    show (sqlAvg [(80 : ℚ), 75, 70]).map sqlRound = some 75
    rw [sqlAvg_cons, Option.map_some',
      sqlRound_eq (z := 75) (by norm_num) (by
        rw [Int.floor_eq_iff]
        constructor <;> norm_num)]
    norm_num
  refine ⟨by decide, by decide, by decide, hD, hE, ?_⟩
  rw [hD, hE]
  intro hcon
  have : (78 : ℚ) = 75 := by injection hcon
  norm_num at this

/-- **C2** (amended): min and max depend only on the start date (changing
the end date never changes them), while the average is the rounded mean
over exactly the rows inside the rendered datetime BETWEEN bounds: a row
dated exactly the start date is excluded, and for rows whose date string
has the same length as the start and end dates the bounds act as
`start < date ≤ end` (end-day rows included). -/
theorem startEndAggregate_spec (db : DB) (s e₁ e₂ : String)
    (hs : validate_date s = true) (h₁ : validate_date e₁ = true)
    (h₂ : validate_date e₂ = true) (hse₁ : strLe s e₁ = true)
    (hse₂ : strLe s e₂ = true) :
    (startEndAggregate db s e₁).1 = (startEndAggregate db s e₂).1 ∧
    (startEndAggregate db s e₁).2.2 = (startEndAggregate db s e₂).2.2 ∧
    (∀ e : String, (startEndAggregate db s e).2.1 =
      if (db.measurements.filter fun o => strLe (bindDatetime s) o.date &&
          strLe o.date (bindDatetime e)) = []
      then none
      else some (sqlRound
        (((db.measurements.filter
            fun o => strLe (bindDatetime s) o.date &&
              strLe o.date (bindDatetime e)).map Obs.tobs).sum /
         ((db.measurements.filter
            fun o => strLe (bindDatetime s) o.date &&
              strLe o.date (bindDatetime e)).map Obs.tobs).length))) ∧
    (∀ e : String, ∀ o ∈ db.measurements, o.date = s →
      o ∉ db.measurements.filter fun o => strLe (bindDatetime s) o.date &&
        strLe o.date (bindDatetime e)) ∧
    (∀ e : String, ∀ o ∈ db.measurements,
      o.date.toList.length = s.toList.length →
      o.date.toList.length = e.toList.length →
      ((o ∈ db.measurements.filter fun o => strLe (bindDatetime s) o.date &&
          strLe o.date (bindDatetime e)) ↔
        (strLt s o.date = true ∧ strLe o.date e = true))) := by
  refine ⟨rfl, rfl, fun e => ?_, fun e o ho he => ?_, fun e o ho hls hle => ?_⟩
  · show (sqlAvg _).map sqlRound = _
    rw [sqlAvg_map_round]
    simp only [List.map_eq_nil_iff]
  · intro hmem
    rw [List.mem_filter, Bool.and_eq_true] at hmem
    have hlow := hmem.2.1
    rw [he, strLe_bind_self] at hlow
    cases hlow
  · rw [List.mem_filter, Bool.and_eq_true]
    rw [strLe_bind_eq_strLt hls.symm, strLe_bind_upper_eq hle]
    simp [ho]

theorem startEndAggregate_spec_witness :
    (startEndAggregate sampleDB "2016-08-23" "2016-08-23").1 =
      (startEndAggregate sampleDB "2016-08-23" "2017-08-23").1 ∧
    (startEndAggregate sampleDB "2016-08-23" "2016-08-23").2.2 =
      (startEndAggregate sampleDB "2016-08-23" "2017-08-23").2.2 ∧
    (⟨"USC1", "2016-08-23", some 3, 70⟩ : Obs) ∉
      sampleDB.measurements.filter
        fun o => strLe (bindDatetime "2016-08-23") o.date &&
          strLe o.date (bindDatetime "2017-08-23") := by
  have h := startEndAggregate_spec sampleDB "2016-08-23" "2016-08-23" "2017-08-23"
    (by decide) (by decide) (by decide) (by decide) (by decide)
  exact ⟨h.1, h.2.1, h.2.2.2.1 "2017-08-23" _ (by decide) (by decide)⟩

/-- **C8**: when no row has `date ≥ start`, the start-only aggregator
returns `none` for all three aggregates instead of failing. -/
theorem startAggregate_empty_result (db : DB) (s : String)
    (hs : validate_date s = true)
    (h : ∀ o ∈ db.measurements, strLe s o.date = false) :
    startAggregate db s = (none, none, none) := by
  have hsel : db.measurements.filter
      (fun o => strLe (bindDatetime s) o.date) = [] := by
    simp only [List.filter_eq_nil_iff]
    intro o ho
    have h1 : strLt o.date s = true := by
      have h0 := h o ho
      simpa [strLe] using h0
    have h2 := strLt_bind_of_lt h1
    simp [strLe, h2]
  unfold startAggregate
  rw [hsel]
  rfl

theorem startAggregate_empty_result_witness :
    startAggregate sampleDB "2018-01-01" = (none, none, none) :=
  startAggregate_empty_result sampleDB "2018-01-01" (by decide) (by decide)

/-- **C9**: an invalid date on either range route yields HTTP 404 with an
error message containing the offending literal string, and a lexically
smaller end date (both dates valid) yields HTTP 404 with a message
containing both literal dates. -/
theorem route_invalid_date_404 (db : DB) :
    (∀ s : String, validate_date s = false →
      ∃ pre post : String,
        startRoute db s = (.clientError (pre ++ s ++ post), 404)) ∧
    (∀ s e : String, validate_date s = false →
      ∃ pre post : String,
        startEndRoute db s e = (.clientError (pre ++ s ++ post), 404)) ∧
    (∀ s e : String, validate_date s = true → validate_date e = false →
      ∃ pre post : String,
        startEndRoute db s e = (.clientError (pre ++ e ++ post), 404)) ∧
    (∀ s e : String, validate_date s = true → validate_date e = true →
      strLt e s = true →
      ∃ pre mid post : String,
        startEndRoute db s e = (.clientError (pre ++ s ++ mid ++ e ++ post), 404)) := by
  refine ⟨fun s hs => ?_, fun s e hs => ?_, fun s e hs he => ?_, fun s e hs he hlt => ?_⟩
  · refine ⟨"Please, specify the date in 'YYYY-MM-DD' format: The entered date '",
      "' is not valid.", ?_⟩
    simp [startRoute, hs]
  · refine ⟨"Please, specify the start date in 'YYYY-MM-DD' format: The entered date '",
      "' is not valid.", ?_⟩
    simp [startEndRoute, hs]
  · refine ⟨"Please, specify the end date in 'YYYY-MM-DD' format: The entered date '",
      "' is not valid.", ?_⟩
    simp [startEndRoute, hs, he]
  · refine ⟨"Please, specify start date less then end date. The dates entered are '",
      "' and '", "'", ?_⟩
    simp [startEndRoute, hs, he, hlt]

theorem route_invalid_date_404_witness :
    (∃ pre post : String,
      startRoute sampleDB "2020-02-30" =
        (.clientError (pre ++ "2020-02-30" ++ post), 404)) ∧
    (∃ pre mid post : String,
      startEndRoute sampleDB "2020-01-10" "2020-01-01" =
        (.clientError (pre ++ "2020-01-10" ++ mid ++ "2020-01-01" ++ post), 404)) :=
  ⟨(route_invalid_date_404 sampleDB).1 "2020-02-30" (by decide),
   (route_invalid_date_404 sampleDB).2.2.2 "2020-01-10" "2020-01-01"
     (by decide) (by decide) (by decide)⟩

/-- **C10**: on an empty measurement table the `precipitation` and `tobs`
handlers fail (the latest-date row is `None` and subscripting it raises),
modelled as `none` rather than a result. -/
theorem emptyDataset_fault (db : DB) (h : db.measurements = []) :
    precipitation db = none ∧ tobsListing db = none := by
  constructor <;> simp [precipitation, tobsListing, maxDateOf, maxEntry, h]

theorem emptyDataset_fault_witness :
    precipitation ⟨[], []⟩ = none ∧ tobsListing ⟨[], []⟩ = none :=
  emptyDataset_fault ⟨[], []⟩ rfl

/-- **C5**: with a latest date `md` (which every row's date is bounded by)
parsing to `d`, and `p` the date one calendar year earlier, the
precipitation listing consists of exactly the `(date, prcp)` pairs of the
rows with `date ≥ p` (a row dated exactly `p` included), sorted by date
then station descending, with `prcp` (possibly null) passed through. -/
theorem precipitation_spec (db : DB) (md : String) (d p : Date)
    (hmax : maxDateOf db = some md) (hparse : parseDate md = some d)
    (hprior : oneYearPrior d = some p) :
    (∀ o ∈ db.measurements, strLe o.date md = true) ∧
    ∃ rows : List Obs,
      precipitation db = some (rows.map fun o => (o.date, o.prcp)) ∧
      rows.Perm (db.measurements.filter fun o => strLe (formatDate p) o.date) ∧
      (∀ o ∈ db.measurements, o.date = formatDate p → o ∈ rows) ∧
      rows.Pairwise fun a b => prcpOrder a b = true := by
  constructor
  · intro o ho
    exact (maxEntry_spec (l := db.measurements.map Obs.date) hmax).2 o.date
      (List.mem_map_of_mem _ ho)
  · refine ⟨(db.measurements.filter
        fun o => strLe (formatDate p) o.date).mergeSort prcpOrder,
      ?_, List.mergeSort_perm _ _, ?_,
      List.sorted_mergeSort prcpOrder_trans prcpOrder_total _⟩
    · simp only [precipitation, hmax, hparse, hprior]
    · intro o ho he
      rw [List.mem_mergeSort, List.mem_filter]
      refine ⟨ho, ?_⟩
      rw [he]
      exact strLe_refl _

theorem precipitation_spec_witness :
    ∃ rows : List Obs,
      precipitation sampleDB = some (rows.map fun o => (o.date, o.prcp)) ∧
      rows.Perm (sampleDB.measurements.filter
        fun o => strLe (formatDate ⟨2016, 8, 23⟩) o.date) := by
  obtain ⟨rows, h1, h2, _, _⟩ := (precipitation_spec sampleDB "2017-08-23"
    ⟨2017, 8, 23⟩ ⟨2016, 8, 23⟩ (by decide) (by decide) (by decide)).2
  exact ⟨rows, h1, h2⟩

/-- **C6**: when `best` has strictly more rows than every other station,
the grouped count query selects it, and the `tobs` listing consists of
exactly `best`'s rows with `date ≥ p` (the one-year-prior date), every
returned row being a row of `best` in that window, sorted by station then
date ascending. -/
theorem tobs_most_active_spec (db : DB) (best md : String) (d p : Date)
    (hmax : maxDateOf db = some md) (hparse : parseDate md = some d)
    (hprior : oneYearPrior d = some p)
    (hmem : best ∈ (db.measurements.map Obs.station).dedup)
    (hstrict : ∀ st ∈ (db.measurements.map Obs.station).dedup,
      st ≠ best → countStation db st < countStation db best) :
    mostActive db = some best ∧
    ∃ rows : List Obs,
      tobsListing db = some (rows.map fun o => (o.station, o.date, o.tobs)) ∧
      rows.Perm (db.measurements.filter
        fun o => o.station == best && strLe (formatDate p) o.date) ∧
      (∀ o ∈ rows, o.station = best ∧ strLe (formatDate p) o.date = true) ∧
      rows.Pairwise fun a b => tobsOrder a b = true := by
  have hma : mostActive db = some best := by
    cases hmac : mostActive db with
    | none =>
      unfold mostActive at hmac
      obtain ⟨hl, _⟩ := mostActive_go_none db hmac
      rw [hl] at hmem
      cases hmem
    | some m =>
      have hmac' := hmac
      unfold mostActive at hmac'
      obtain ⟨hm, hall, _⟩ := mostActive_go db hmac'
      rcases hm with hm | hm
      · cases hm
      · by_cases hb : m = best
        · rw [hb]
        · have h1 := hstrict m hm hb
          have h2 := hall best hmem
          omega
  refine ⟨hma, (db.measurements.filter
      fun o => o.station == best && strLe (formatDate p) o.date).mergeSort tobsOrder,
    ?_, List.mergeSort_perm _ _, ?_,
    List.sorted_mergeSort tobsOrder_trans tobsOrder_total _⟩
  · simp only [tobsListing, hmax, hparse, hprior, hma]
  · intro o ho
    rw [List.mem_mergeSort, List.mem_filter] at ho
    obtain ⟨_, hcond⟩ := ho
    simp only [Bool.and_eq_true, beq_iff_eq] at hcond
    exact hcond

theorem tobs_most_active_spec_witness :
    mostActive sampleDB = some "USC1" :=
  (tobs_most_active_spec sampleDB "USC1" "2017-08-23" ⟨2017, 8, 23⟩ ⟨2016, 8, 23⟩
    (by decide) (by decide) (by decide) (by decide) (by decide)).1

/-- **C7**: assuming referential integrity (every measurement's station
has a station record), the station catalog has pairwise-distinct station
ids, contains a station iff it has at least one measurement, carries each
station's joined display name, and is sorted by station id ascending. -/
theorem stationCatalog_spec (db : DB)
    (href : ∀ o ∈ db.measurements, ∃ srow ∈ db.stations,
      srow.station = o.station) :
    ((stationCatalog db).map Prod.fst).Nodup ∧
    (∀ r ∈ stationCatalog db, ∃ o ∈ db.measurements, o.station = r.1) ∧
    (∀ r ∈ stationCatalog db, ∃ srow ∈ db.stations,
      srow.station = r.1 ∧ r.2 = srow.name) ∧
    (∀ st : String, (∃ o ∈ db.measurements, o.station = st) →
      ∃ r ∈ stationCatalog db, r.1 = st) ∧
    (stationCatalog db).Pairwise fun a b => stationOrder a b = true := by
  have hperm : (stationCatalog db).Perm
      (((db.measurements.map Obs.station).dedup).filterMap
        (fun st => (db.stations.find? fun s => s.station == st).map
          fun s => (st, s.name))) := by
    unfold stationCatalog
    exact List.mergeSort_perm _ _
  refine ⟨?_, ?_, ?_, ?_, ?_⟩
  · have h1 := catalog_fst db (db.measurements.map Obs.station).dedup
    have h2 : ((db.measurements.map Obs.station).dedup.filter
        fun st => (db.stations.find? fun s => s.station == st).isSome).Nodup :=
      (List.nodup_dedup _).filter _
    rw [← h1] at h2
    exact ((hperm.map Prod.fst).nodup_iff).mpr h2
  · intro r hr
    rw [hperm.mem_iff, List.mem_filterMap] at hr
    obtain ⟨st, hst, hg⟩ := hr
    cases hf : db.stations.find? fun s => s.station == st with
    | none => rw [hf] at hg; cases hg
    | some srow =>
      rw [hf] at hg
      have hr1 : r = (st, srow.name) := by
        cases hg
        rfl
      obtain ⟨o, ho, hos⟩ := List.mem_map.mp (List.mem_dedup.mp hst)
      exact ⟨o, ho, by rw [hos, hr1]⟩
  · intro r hr
    rw [hperm.mem_iff, List.mem_filterMap] at hr
    obtain ⟨st, hst, hg⟩ := hr
    cases hf : db.stations.find? fun s => s.station == st with
    | none => rw [hf] at hg; cases hg
    | some srow =>
      rw [hf] at hg
      have hr1 : r = (st, srow.name) := by
        cases hg
        rfl
      refine ⟨srow, List.mem_of_find?_eq_some hf, ?_, by rw [hr1]⟩
      have hp := List.find?_some hf
      rw [beq_iff_eq] at hp
      rw [hr1, hp]
  · intro st hst
    obtain ⟨o, ho, hos⟩ := hst
    have hstL : st ∈ (db.measurements.map Obs.station).dedup :=
      List.mem_dedup.mpr (List.mem_map.mpr ⟨o, ho, hos⟩)
    obtain ⟨srow, hsr, hss⟩ := href o ho
    have hfs : (db.stations.find? fun s => s.station == st).isSome := by
      rw [List.find?_isSome]
      exact ⟨srow, hsr, by rw [beq_iff_eq, hss, hos]⟩
    obtain ⟨srow', hf⟩ := Option.isSome_iff_exists.mp hfs
    refine ⟨(st, srow'.name), ?_, rfl⟩
    rw [hperm.mem_iff, List.mem_filterMap]
    exact ⟨st, hstL, by rw [hf]; rfl⟩
  · unfold stationCatalog
    exact List.sorted_mergeSort stationOrder_trans stationOrder_total _

theorem stationCatalog_spec_witness :
    ((stationCatalog sampleDB).map Prod.fst).Nodup :=
  (stationCatalog_spec sampleDB (by decide)).1

/-- **C9** (counterexample): with start `"zz"` and end `"qq"` the end date
is lexically smaller than the start date, yet the handler's 404 message
references only the invalid start date: no decomposition of the returned
message embeds the end literal `"qq"` (the message has no `q` at all). -/
theorem route_end_before_start_counterexample :
    strLt "qq" "zz" = true ∧
    ¬ ∃ pre mid post : String,
      startEndRoute sampleDB "zz" "qq" =
        (RouteResult.clientError (pre ++ "zz" ++ mid ++ "qq" ++ post), 404) := by
  refine ⟨by decide, ?_⟩
  rintro ⟨pre, mid, post, h⟩
  have h0 : startEndRoute sampleDB "zz" "qq" =
      (RouteResult.clientError
        ("Please, specify the start date in 'YYYY-MM-DD' format: The entered date '"
          ++ "zz" ++ "' is not valid."), 404) := by decide
  rw [h0] at h
  simp only [Prod.mk.injEq, RouteResult.clientError.injEq] at h
  obtain ⟨hmsg, -⟩ := h
  have hcount := congrArg (fun t : String => t.data.count 'q') hmsg
  simp only [String.data_append, List.count_append] at hcount
  have h1 : ("Please, specify the start date in 'YYYY-MM-DD' format: The entered date '"
      : String).data.count 'q' = 0 := by decide
  have h2 : ("zz" : String).data.count 'q' = 0 := by decide
  have h3 : ("qq" : String).data.count 'q' = 2 := by decide
  have h4 : ("' is not valid." : String).data.count 'q' = 0 := by decide
  rw [h1, h2, h3, h4] at hcount
  omega

end ClimateApp
